import Mathlib

/-!
Verification of the FDC demo dapp (fassko/fdc-demo-dapp).

Shallow embedding of the TypeScript sources:
* src/lib/publicClient.ts (utils half): toHex
* the workflow React component (unnamed part_000): updateStepStatus,
  executeFdcWorkflow, continueWorkflowAfterSubmission,
  submitAttestationRequestWithWagmi
* src/lib/fdcUtils.ts: retrieveDataAndProof, retrieveDataAndProofWithRetry,
  prepareAttestationRequestBase, getFdcRequestFee, submitAttestationRequest,
  verifyPayment

Stateful/async code is embedded as explicit event traces; network and chain
interaction results are abstracted as function parameters, since the repository
treats those endpoints as opaque.
-/

/-! ## toHex (src/lib/publicClient.ts, utils section, lines 25-31)

TypeScript:
  function toHex(data: string): string {
    let result = '';
    for (let i = 0; i < data.length; i++) {
      result += data.charCodeAt(i).toString(16);
    }
    return '0x' + result.padEnd(64, '0');
  }

JavaScript's Number.prototype.toString(16) on a nonnegative integer produces
the minimal lowercase hex digit string, which is exactly Nat.toDigits 16.
-/

/-- Concatenation of the hex digit strings of the char codes of a list of
characters: the loop body of toHex. -/
def hexOfCodes (l : List Char) : List Char :=
  (l.map (fun c => Nat.toDigits 16 c.toNat)).flatten

/-- String.prototype.padEnd on the underlying character list. -/
def padEndList (l : List Char) (n : Nat) (c : Char) : List Char :=
  l ++ List.replicate (n - l.length) c

/-- Embedding of toHex from src/lib/publicClient.ts. -/
def toHex (data : String) : String :=
  "0x" ++ String.mk (padEndList (hexOfCodes data.data) 64 '0')

/-- A lowercase hexadecimal digit. -/
def isHexDigit (c : Char) : Bool :=
  ("0123456789abcdef".data).contains c

set_option maxRecDepth 4096

/-- Char codes below 256 hex-encode to at most two digits. -/
theorem toDigits16_length_le (n : Nat) (h : n < 256) :
    (Nat.toDigits 16 n).length ≤ 2 := by
  revert h
  revert n
  decide

/-- Char codes below 256 hex-encode to hexadecimal digit characters only. -/
theorem toDigits16_all_hex (n : Nat) (h : n < 256) :
    (Nat.toDigits 16 n).all isHexDigit = true := by
  revert h
  revert n
  decide

/-- The hex encoding of a list of sub-256 char codes has at most twice the
length of the list. -/
theorem hexOfCodes_length_le (l : List Char) (h : ∀ c ∈ l, c.toNat < 128) :
    (hexOfCodes l).length ≤ 2 * l.length := by
  induction l with
  | nil => simp [hexOfCodes]
  | cons c l ih =>
      have hc : c.toNat < 256 := by
        have := h c (by simp)
        omega
      have hl : ∀ x ∈ l, x.toNat < 128 := fun x hx => h x (by simp [hx])
      have hih := ih hl
      have hd := toDigits16_length_le c.toNat hc
      simp only [hexOfCodes, List.map_cons, List.flatten_cons,
        List.length_append, List.length_cons]
      simp only [hexOfCodes] at hih
      omega

/-- Every character of the hex encoding of sub-128 char codes is a hexadecimal
digit. -/
theorem hexOfCodes_all_hex (l : List Char) (h : ∀ c ∈ l, c.toNat < 128) :
    (hexOfCodes l).all isHexDigit = true := by
  induction l with
  | nil => simp [hexOfCodes]
  | cons c l ih =>
      have hc : c.toNat < 256 := by
        have := h c (by simp)
        omega
      have hl : ∀ x ∈ l, x.toNat < 128 := fun x hx => h x (by simp [hx])
      have h1 := toDigits16_all_hex c.toNat hc
      have h2 := ih hl
      simp only [hexOfCodes, List.map_cons, List.flatten_cons, List.all_append]
      simp only [hexOfCodes] at h2
      simp [h1, h2]

/-- Replicated zeros are hexadecimal digits. -/
theorem replicate_zero_all_hex (n : Nat) :
    (List.replicate n '0').all isHexDigit = true := by
  simp only [List.all_eq_true]
  intro c hc
  have hc0 := List.eq_of_mem_replicate hc
  subst hc0
  decide

/-- C9: for every input string of at most 32 ASCII characters (char codes
below 128), toHex returns the two characters 0x followed by exactly 64
hexadecimal characters, namely the concatenation of the char codes in hex
right-padded with the digit 0 to length 64; and on the empty string it
returns 0x followed by 64 zeros. -/
theorem toHex_ascii_spec :
    (∀ s : String, (∀ c ∈ s.data, c.toNat < 128) → s.length ≤ 32 →
      ∃ t : List Char,
        toHex s = "0x" ++ String.mk t ∧
        t = hexOfCodes s.data ++
              List.replicate (64 - (hexOfCodes s.data).length) '0' ∧
        t.length = 64 ∧
        t.all isHexDigit = true) ∧
    toHex "" =
      "0x0000000000000000000000000000000000000000000000000000000000000000" := by
  constructor
  · intro s h1 h2
    refine ⟨padEndList (hexOfCodes s.data) 64 '0', rfl, rfl, ?_, ?_⟩
    · have hlen : (hexOfCodes s.data).length ≤ 64 := by
        have := hexOfCodes_length_le s.data h1
        have hs : s.data.length ≤ 32 := h2
        omega
      simp only [padEndList, List.length_append, List.length_replicate]
      omega
    · simp only [padEndList, List.all_append]
      have := hexOfCodes_all_hex s.data h1
      have := replicate_zero_all_hex (64 - (hexOfCodes s.data).length)
      simp_all
  · decide

/-- C9 witness: toHex on the concrete source id base string testXRP used by
the repository. -/
theorem toHex_ascii_spec_witness :
    ∃ t : List Char,
      toHex "testXRP" = "0x" ++ String.mk t ∧
      t = hexOfCodes "testXRP".data ++
            List.replicate (64 - (hexOfCodes "testXRP".data).length) '0' ∧
      t.length = 64 ∧
      t.all isHexDigit = true :=
  toHex_ascii_spec.1 "testXRP" (by decide) (by decide)

/-! ## Step state and updateStepStatus (workflow component, lines 60-75 and
141-155)

TypeScript interface FdcStep has fields id, title, description, status,
data?, error?, details?.  The React-node description and the
Record<string, unknown> data payloads are embedded as String and as
association lists.  updateStepStatus maps over the step list and replaces
status, data and error of the step whose id matches, via object spread. -/

/-- Status of a workflow step: 'pending' | 'in_progress' | 'completed' |
'error'. -/
inductive StepStatus where
  | pending
  | in_progress
  | completed
  | error
deriving DecidableEq, Repr

/-- Embedding of the details payload of interface FdcStep. -/
structure StepDetails where
  whatHappens : String
  technicalDetails : String
  apiEndpoint : Option String
  requestBody : Option (List (String × String))
  responseBody : Option (List (String × String))
  curlCommand : Option String
deriving DecidableEq, Repr

/-- Embedding of interface FdcStep of the workflow component. -/
structure FdcStep where
  id : String
  title : String
  description : String
  status : StepStatus
  data : Option (List (String × String))
  error : Option String
  details : Option StepDetails
deriving DecidableEq, Repr

/-- Embedding of updateStepStatus: prev.map over the steps, replacing the
status, data and error fields of the step whose id matches stepId by object
spread, leaving every other step untouched. -/
def updateStepStatus (stepId : String) (status : StepStatus)
    (data : Option (List (String × String))) (error : Option String)
    (steps : List FdcStep) : List FdcStep :=
  steps.map (fun step =>
    if step.id = stepId then
      { step with status := status, data := data, error := error }
    else step)

/-- C10: updateStepStatus preserves length and order; a step with a
different id is returned unchanged; the matching step keeps id, title,
description and details and has exactly status, data and error replaced. -/
theorem updateStepStatus_frame (stepId : String) (status : StepStatus)
    (data : Option (List (String × String))) (error : Option String)
    (steps : List FdcStep) :
    (updateStepStatus stepId status data error steps).length = steps.length ∧
    ∀ i (h : i < steps.length)
      (h2 : i < (updateStepStatus stepId status data error steps).length),
      (steps[i].id ≠ stepId →
        (updateStepStatus stepId status data error steps)[i] = steps[i]) ∧
      (steps[i].id = stepId →
        (updateStepStatus stepId status data error steps)[i].id =
            steps[i].id ∧
        (updateStepStatus stepId status data error steps)[i].title =
            steps[i].title ∧
        (updateStepStatus stepId status data error steps)[i].description =
            steps[i].description ∧
        (updateStepStatus stepId status data error steps)[i].details =
            steps[i].details ∧
        (updateStepStatus stepId status data error steps)[i].status = status ∧
        (updateStepStatus stepId status data error steps)[i].data = data ∧
        (updateStepStatus stepId status data error steps)[i].error = error) := by
  refine ⟨by simp [updateStepStatus], ?_⟩
  intro i h h2
  constructor
  · intro hne
    simp [updateStepStatus, hne]
  · intro heq
    simp [updateStepStatus, heq]

/-- Concrete step list used to witness C10: the first two steps of the
component's initial state, with description text flattened. -/
def demoSteps : List FdcStep :=
  [{ id := "prepare-request",
     title := "1. Prepare Request",
     description := "Prepare the attestation request using the verifier API",
     status := StepStatus.pending,
     data := none, error := none, details := none },
   { id := "submit-request",
     title := "2. Submit Request",
     description := "Submit the attestation request to the FdcHub contract",
     status := StepStatus.pending,
     data := none, error := none, details := none }]

/-- C10 witness: updating submit-request leaves the prepare-request step of
the concrete demo list unchanged. -/
theorem updateStepStatus_frame_witness :
    (updateStepStatus "submit-request" StepStatus.completed none none
        demoSteps)[0] = demoSteps[0] :=
  ((updateStepStatus_frame "submit-request" StepStatus.completed none none
      demoSteps).2 0 (by decide) (by decide)).1 (by decide)


/-! ## retrieveDataAndProofWithRetry (src/lib/fdcUtils.ts, lines 194-219)

TypeScript:
  for (let i = 0; i < attempts; i++) {
    try { return await retrieveDataAndProof(...); }
    catch (error) { console.log(...); await sleep(20000); }
  }
  throw new Error(`Failed to retrieve data and proofs after N attempts`);

Each whole retrieveDataAndProof attempt is abstracted as an oracle from the
attempt index to Option: some v when the attempt resolves with v, none when
it throws.  The for-loop over i < attempts is embedded as a structural
recursion over List.range attempts; the sleeps and attempts are recorded in
an event trace. -/

/-- An observable event of the retry loop: one retrieveDataAndProof attempt
at a given index, or one sleep of the given number of milliseconds. -/
inductive RetryEvent where
  | attempt (i : Nat)
  | slept (ms : Nat)
deriving DecidableEq, Repr

/-- Recognizer for attempt events, used to count calls in a trace. -/
def isAttemptEvent : RetryEvent → Bool
  | RetryEvent.attempt _ => true
  | RetryEvent.slept _ => false

/-- Error message thrown after the loop, as in the source template string. -/
def retryFailureMessage (attempts : Nat) : String :=
  "Failed to retrieve data and proofs after " ++ toString attempts ++
    " attempts"

/-- Body of the retry for-loop, iterating over the remaining attempt
indices.  A successful attempt returns immediately; a failed attempt logs,
sleeps 20000 ms and continues; an exhausted index list throws. -/
def retryGo {α : Type} (oracle : Nat → Option α) (attempts : Nat) :
    List Nat → Except String α × List RetryEvent
  | [] => (Except.error (retryFailureMessage attempts), [])
  | i :: rest =>
    match oracle i with
    | some v => (Except.ok v, [RetryEvent.attempt i])
    | none =>
        let r := retryGo oracle attempts rest
        (r.1, RetryEvent.attempt i :: RetryEvent.slept 20000 :: r.2)

/-- Embedding of retrieveDataAndProofWithRetry: run the loop over the
indices 0, ..., attempts - 1. -/
def retrieveDataAndProofWithRetry {α : Type} (oracle : Nat → Option α)
    (attempts : Nat) : Except String α × List RetryEvent :=
  retryGo oracle attempts (List.range attempts)

/-- Default value of the attempts parameter in the source signature. -/
def DEFAULT_RETRY_ATTEMPTS : Nat := 10

/-- Trace of one failed attempt: the call followed by the fixed 20000 ms
sleep. -/
def failedAttemptTrace (i : Nat) : List RetryEvent :=
  [RetryEvent.attempt i, RetryEvent.slept 20000]

/-- The retry loop performs at most one attempt per remaining index. -/
theorem retryGo_attempt_count {α : Type} (oracle : Nat → Option α)
    (attempts : Nat) :
    ∀ l : List Nat,
      ((retryGo oracle attempts l).2.filter isAttemptEvent).length ≤
        l.length := by
  intro l
  induction l with
  | nil => simp [retryGo]
  | cons i rest ih =>
      cases h : oracle i with
      | some v => simp [retryGo, h, isAttemptEvent]
      | none =>
          have hx := ih
          simp only [retryGo, h, List.length_cons]
          simp [isAttemptEvent]
          omega

/-- Generalized behaviour of the retry loop over a contiguous index range
starting at s. -/
theorem retryGo_range' {α : Type} (oracle : Nat → Option α) (attempts : Nat) :
    ∀ n s,
      (∀ v tr,
        retryGo oracle attempts (List.range' s n) = (Except.ok v, tr) →
        ∃ i, s ≤ i ∧ i < s + n ∧ oracle i = some v ∧
          (∀ j, s ≤ j → j < i → oracle j = none) ∧
          tr = ((List.range' s (i - s)).map failedAttemptTrace).flatten ++
                 [RetryEvent.attempt i]) ∧
      ((∀ i, s ≤ i → i < s + n → oracle i = none) →
        retryGo oracle attempts (List.range' s n) =
          (Except.error (retryFailureMessage attempts),
           ((List.range' s n).map failedAttemptTrace).flatten)) := by
  intro n
  induction n with
  | zero =>
      intro s
      constructor
      · intro v tr h
        simp [retryGo] at h
      · intro _
        simp [retryGo]
  | succ n ih =>
      intro s
      have hrange : List.range' s (n + 1) = s :: List.range' (s + 1) n := by
        simp [List.range'_succ]
      constructor
      · intro v tr h
        rw [hrange] at h
        cases hs : oracle s with
        | some w =>
            simp only [retryGo, hs] at h
            have h1 : Except.ok (ε := String) w = Except.ok v :=
              congrArg Prod.fst h
            have h2 : [RetryEvent.attempt s] = tr := congrArg Prod.snd h
            refine ⟨s, le_refl s, by omega, ?_, ?_, ?_⟩
            · rw [hs]
              exact congrArg some (Except.ok.inj h1)
            · intro j hj1 hj2
              omega
            · rw [← h2]
              simp [Nat.sub_self]
        | none =>
            simp only [retryGo, hs] at h
            have hres : (retryGo oracle attempts
                (List.range' (s + 1) n)).1 = Except.ok v :=
              congrArg Prod.fst h
            have htr : RetryEvent.attempt s :: RetryEvent.slept 20000 ::
                (retryGo oracle attempts (List.range' (s + 1) n)).2 = tr :=
              congrArg Prod.snd h
            obtain ⟨i, hi1, hi2, hi3, hi4, hi5⟩ :=
              (ih (s + 1)).1 v
                (retryGo oracle attempts (List.range' (s + 1) n)).2
                (by rw [← hres])
            refine ⟨i, by omega, by omega, hi3, ?_, ?_⟩
            · intro j hj1 hj2
              by_cases hj : j = s
              · subst hj
                exact hs
              · exact hi4 j (by omega) hj2
            · rw [← htr]
              have hisucc : i - s = (i - (s + 1)) + 1 := by omega
              rw [hisucc]
              have hr2 : List.range' s (i - (s + 1) + 1) =
                  s :: List.range' (s + 1) (i - (s + 1)) := by
                simp [List.range'_succ]
              rw [hr2]
              simp [failedAttemptTrace, hi5]
      · intro hall
        rw [hrange]
        have hnone : oracle s = none := hall s (le_refl s) (by omega)
        have hrec := (ih (s + 1)).2
          (fun i h1 h2 => hall i (by omega) (by omega))
        simp [retryGo, hnone, hrec, failedAttemptTrace]

/-- C3: retrieveDataAndProofWithRetry makes at most attempts calls; a
returned value is the first successful attempt, with one fixed 20000 ms
sleep after each of the preceding failed attempts; if every attempt fails it
throws the exact failure message, the trace being attempts calls each
followed by a 20000 ms sleep; the source default for attempts is 10. -/
theorem retrieveDataAndProofWithRetry_spec {α : Type}
    (oracle : Nat → Option α) (attempts : Nat) :
    ((retrieveDataAndProofWithRetry oracle attempts).2.filter
        isAttemptEvent).length ≤ attempts ∧
    (∀ v tr, retrieveDataAndProofWithRetry oracle attempts =
        (Except.ok v, tr) →
      ∃ i, i < attempts ∧ oracle i = some v ∧
        (∀ j, j < i → oracle j = none) ∧
        tr = ((List.range i).map failedAttemptTrace).flatten ++
               [RetryEvent.attempt i]) ∧
    ((∀ i, i < attempts → oracle i = none) →
      retrieveDataAndProofWithRetry oracle attempts =
        (Except.error (retryFailureMessage attempts),
         ((List.range attempts).map failedAttemptTrace).flatten)) ∧
    DEFAULT_RETRY_ATTEMPTS = 10 := by
  have hbase := retryGo_range' oracle attempts attempts 0
  have hrange0 : List.range attempts = List.range' 0 attempts :=
    List.range_eq_range' attempts
  refine ⟨?_, ?_, ?_, rfl⟩
  · have := retryGo_attempt_count oracle attempts (List.range attempts)
    simpa [retrieveDataAndProofWithRetry] using this
  · intro v tr h
    obtain ⟨i, hi1, hi2, hi3, hi4, hi5⟩ := hbase.1 v tr (by
      unfold retrieveDataAndProofWithRetry at h
      rw [hrange0] at h
      simpa using h)
    refine ⟨i, by omega, hi3, fun j hj => hi4 j (by omega) hj, ?_⟩
    rw [Nat.sub_zero] at hi5
    rw [hi5, List.range_eq_range']
  · intro hall
    have := hbase.2 (fun i _ h2 => hall i (by omega))
    unfold retrieveDataAndProofWithRetry
    rw [hrange0, this]

/-- C3 witness: with an oracle failing on the first two attempts and
succeeding on the third, the default 10-attempt retry returns the third
outcome after two failed attempts, each followed by a 20000 ms sleep. -/
theorem retrieveDataAndProofWithRetry_spec_witness :
    ∃ i, i < 10 ∧
      (fun n => if n ≥ 2 then some n else (none : Option Nat)) i = some 2 ∧
      (∀ j, j < i →
        (fun n => if n ≥ 2 then some n else (none : Option Nat)) j = none) ∧
      ((List.range i).map failedAttemptTrace).flatten ++
          [RetryEvent.attempt i] =
        ((List.range i).map failedAttemptTrace).flatten ++
          [RetryEvent.attempt i] := by
  obtain ⟨i, h1, h2, h3, -⟩ :=
    (retrieveDataAndProofWithRetry_spec
      (fun n => if n ≥ 2 then some n else (none : Option Nat)) 10).2.1 2
      (((List.range 2).map failedAttemptTrace).flatten ++
        [RetryEvent.attempt 2])
      (by rfl)
  exact ⟨i, h1, h2, h3, rfl⟩

/-! ## retrieveDataAndProof (src/lib/fdcUtils.ts, lines 117-162)

TypeScript:
  await sleep(30000);                          // round finalization wait
  const request = { votingRoundId, requestBytes };
  await sleep(10000);
  let proof = await postRequestToDALayer(url, request, apiKey);
  if (proof.response && proof.proof && Array.isArray(proof.proof)) return proof;
  while (!proof.response || !proof.proof || !Array.isArray(proof.proof)) {
    await sleep(10000);
    proof = await postRequestToDALayer(url, request, apiKey);
    if (proof.response && proof.proof && Array.isArray(proof.proof)) break;
  }
  return proof;

The DA Layer is abstracted as a stream from the poll index to the parsed
JSON body of the k-th postRequestToDALayer call; the potentially unbounded
while-loop is embedded with explicit fuel.  A present (truthy) field is
some; the Array.isArray test is the arr constructor of the proof field. -/

/-- The proof field of a DA Layer response body: either a JSON array of
entries, or some non-array value. -/
inductive DAProofField where
  | arr (items : List String)
  | nonArray
deriving DecidableEq, Repr

/-- Parsed JSON body of one DA Layer poll response; the attestation response
payload is abstract. -/
structure DAResponse (α : Type) where
  response : Option α
  proof : Option DAProofField

/-- The source's success test: proof.response and proof.proof are present
and proof.proof is an array. -/
def isGoodProof {α : Type} (p : DAResponse α) : Bool :=
  p.response.isSome &&
    match p.proof with
    | some (DAProofField.arr _) => true
    | _ => false

/-- An observable event of retrieveDataAndProof: a sleep of the given number
of milliseconds or the k-th poll of the DA Layer. -/
inductive DAEvent where
  | slept (ms : Nat)
  | daCall (k : Nat)
deriving DecidableEq, Repr

/-- The polling loop of retrieveDataAndProof: sleep 10000 ms, poll, return
on the first response passing isGoodProof; fuel bounds the number of polls
of the unbounded source loop. -/
def pollDA {α : Type} (stream : Nat → DAResponse α) (k : Nat) :
    Nat → Option (DAResponse α) × List DAEvent
  | 0 => (none, [])
  | fuel + 1 =>
    let p := stream k
    if isGoodProof p then
      (some p, [DAEvent.slept 10000, DAEvent.daCall k])
    else
      let r := pollDA stream (k + 1) fuel
      (r.1, DAEvent.slept 10000 :: DAEvent.daCall k :: r.2)

/-- Embedding of retrieveDataAndProof: the 30000 ms round-finalization wait
followed by the polling loop starting at poll index 0. -/
def retrieveDataAndProof {α : Type} (stream : Nat → DAResponse α)
    (fuel : Nat) : Option (DAResponse α) × List DAEvent :=
  let r := pollDA stream 0 fuel
  (r.1, DAEvent.slept 30000 :: r.2)

/-- The delay pattern of the claim: one 30000 ms wait, then for each of the
n polls a single 10000 ms wait directly before it. -/
def expectedDATrace (n : Nat) : List DAEvent :=
  DAEvent.slept 30000 ::
    ((List.range n).map
      (fun k => [DAEvent.slept 10000, DAEvent.daCall k])).flatten

/-- Generalized behaviour of the polling loop from start index k. -/
theorem pollDA_spec {α : Type} (stream : Nat → DAResponse α) :
    ∀ fuel k,
      (∀ r, (pollDA stream k fuel).1 = some r →
        isGoodProof r = true ∧
        ∃ i, k ≤ i ∧ i < k + fuel ∧ stream i = r ∧
          (∀ j, k ≤ j → j < i → isGoodProof (stream j) = false)) ∧
      ((pollDA stream k fuel).1 = none →
        ∀ j, k ≤ j → j < k + fuel → isGoodProof (stream j) = false) ∧
      (∃ n, n ≤ fuel ∧
        (pollDA stream k fuel).2 =
          ((List.range' k n).map
            (fun i => [DAEvent.slept 10000, DAEvent.daCall i])).flatten) := by
  intro fuel
  induction fuel with
  | zero =>
      intro k
      refine ⟨?_, ?_, 0, by omega, by simp [pollDA]⟩
      · intro r h
        simp [pollDA] at h
      · intro _ j _ hj
        omega
  | succ fuel ih =>
      intro k
      by_cases hg : isGoodProof (stream k) = true
      · refine ⟨?_, ?_, 1, by omega, ?_⟩
        · intro r h
          simp only [pollDA, hg, if_true] at h
          obtain rfl := Option.some.inj h
          exact ⟨hg, k, le_refl k, by omega, rfl, fun j h1 h2 => by omega⟩
        · intro h
          simp [pollDA, hg] at h
        · simp [pollDA, hg, List.range'_succ]
      · have hgf : isGoodProof (stream k) = false := by
          simpa using hg
        obtain ⟨ih1, ih2, n, hn, htr⟩ := ih (k + 1)
        refine ⟨?_, ?_, n + 1, by omega, ?_⟩
        · intro r h
          simp only [pollDA, hgf, Bool.false_eq_true, if_false] at h
          obtain ⟨hgood, i, hi1, hi2, hi3, hi4⟩ := ih1 r h
          refine ⟨hgood, i, by omega, by omega, hi3, ?_⟩
          intro j hj1 hj2
          by_cases hj : j = k
          · subst hj
            exact hgf
          · exact hi4 j (by omega) hj2
        · intro h j hj1 hj2
          simp only [pollDA, hgf, Bool.false_eq_true, if_false] at h
          by_cases hj : j = k
          · subst hj
            exact hgf
          · exact ih2 h j (by omega) (by omega)
        · simp only [pollDA, hgf, Bool.false_eq_true, if_false]
          have : List.range' k (n + 1) = k :: List.range' (k + 1) n := by
            simp [List.range'_succ]
          rw [this]
          simp [htr]

/-- C4: whenever retrieveDataAndProof returns a value, that value passes the
proof predicate (response present, proof present, proof an array), it is the
response of the first poll that passed the predicate, and as long as no poll
passes the predicate (fuel exhausted) no value is returned. -/
theorem retrieveDataAndProof_good {α : Type} (stream : Nat → DAResponse α)
    (fuel : Nat) :
    (∀ r, (retrieveDataAndProof stream fuel).1 = some r →
      isGoodProof r = true ∧
      ∃ i, i < fuel ∧ stream i = r ∧
        (∀ j, j < i → isGoodProof (stream j) = false)) ∧
    ((retrieveDataAndProof stream fuel).1 = none →
      ∀ j, j < fuel → isGoodProof (stream j) = false) := by
  obtain ⟨h1, h2, -⟩ := pollDA_spec stream fuel 0
  constructor
  · intro r h
    obtain ⟨hgood, i, -, hi2, hi3, hi4⟩ := h1 r h
    exact ⟨hgood, i, by omega, hi3, fun j hj => hi4 j (by omega) hj⟩
  · intro h j hj
    exact h2 h j (by omega) (by omega)

/-- C4 witness: a stream whose first response lacks the proof array and
whose second response is complete; the returned value passes the predicate
and is the second response. -/
theorem retrieveDataAndProof_good_witness :
    isGoodProof
        (⟨some 7, some (DAProofField.arr ["0xab"])⟩ : DAResponse Nat) = true ∧
    ∃ i, i < 3 ∧
      (fun k => if k = 0 then (⟨none, none⟩ : DAResponse Nat)
        else ⟨some 7, some (DAProofField.arr ["0xab"])⟩) i =
        (⟨some 7, some (DAProofField.arr ["0xab"])⟩ : DAResponse Nat) ∧
      (∀ j, j < i →
        isGoodProof
          ((fun k => if k = 0 then (⟨none, none⟩ : DAResponse Nat)
            else ⟨some 7, some (DAProofField.arr ["0xab"])⟩) j) = false) :=
  (retrieveDataAndProof_good
    (fun k => if k = 0 then (⟨none, none⟩ : DAResponse Nat)
      else ⟨some 7, some (DAProofField.arr ["0xab"])⟩) 3).1
    ⟨some 7, some (DAProofField.arr ["0xab"])⟩ (by rfl)

/-- C5: the trace of retrieveDataAndProof is exactly one 30000 ms
round-finalization wait followed by, for each DA Layer poll, a single fixed
10000 ms wait directly before it: in particular there is a 10000 ms wait
before the first poll, exactly one 10000 ms wait between consecutive polls,
and every wait is 30000 or 10000 ms. -/
theorem retrieveDataAndProof_delays {α : Type} (stream : Nat → DAResponse α)
    (fuel : Nat) :
    ∃ n, n ≤ fuel ∧
      (retrieveDataAndProof stream fuel).2 = expectedDATrace n ∧
      ∀ ms, DAEvent.slept ms ∈ (retrieveDataAndProof stream fuel).2 →
        ms = 30000 ∨ ms = 10000 := by
  obtain ⟨-, -, n, hn, htr⟩ := pollDA_spec stream fuel 0
  refine ⟨n, hn, ?_, ?_⟩
  · unfold retrieveDataAndProof expectedDATrace
    rw [List.range_eq_range']
    simpa using htr
  · intro ms hms
    unfold retrieveDataAndProof at hms
    simp only [List.mem_cons] at hms
    rcases hms with h | h
    · left
      exact (DAEvent.slept.inj h.symm).symm
    · right
      rw [htr] at h
      simp only [List.mem_flatten, List.mem_map] at h
      obtain ⟨l, ⟨i, -, hl⟩, hml⟩ := h
      rw [← hl] at hml
      simp only [List.mem_cons, List.mem_singleton] at hml
      rcases hml with h | h | h
      · exact (DAEvent.slept.inj h.symm).symm
      · exact absurd h (by simp)
      · exact absurd h (by simp)

/-- C5 witness: the delay shape at a concrete stream that succeeds on the
second poll with fuel 4. -/
theorem retrieveDataAndProof_delays_witness :
    ∃ n, n ≤ 4 ∧
      (retrieveDataAndProof
        (fun k => if k = 0 then (⟨none, none⟩ : DAResponse Nat)
          else ⟨some 7, some (DAProofField.arr [])⟩) 4).2 =
        expectedDATrace n ∧
      ∀ ms, DAEvent.slept ms ∈
          (retrieveDataAndProof
            (fun k => if k = 0 then (⟨none, none⟩ : DAResponse Nat)
              else ⟨some 7, some (DAProofField.arr [])⟩) 4).2 →
        ms = 30000 ∨ ms = 10000 :=
  retrieveDataAndProof_delays
    (fun k => if k = 0 then (⟨none, none⟩ : DAResponse Nat)
      else ⟨some 7, some (DAProofField.arr [])⟩) 4

/-! ## prepareAttestationRequestBase (src/lib/fdcUtils.ts, lines 337-371)

The fetch call is abstracted as a function from the prepared request to the
HTTP response (status, statusText and parsed JSON body).  The definition
returns both the request it sent and the outcome, so that the sent request
can be inspected. -/

/-- An HTTP response as seen by the code: numeric status, status text and
the parsed JSON body. -/
structure HttpResponse (β : Type) where
  status : Nat
  statusText : String
  body : β

/-- The JSON body posted to the verifier: attestationType, sourceId and the
request body (PaymentRequestBody or
ReferencedPaymentNonexistenceRequestBody, abstracted as a type parameter). -/
structure AttestationRequest (ρ : Type) where
  attestationType : String
  sourceId : String
  requestBody : ρ

/-- Embedding of prepareAttestationRequestBase: build the request from
toHex of the base strings and the given body, send it, throw unless the
status is exactly 200, otherwise return the parsed body. -/
def prepareAttestationRequestBase {ρ β : Type}
    (fetcher : AttestationRequest ρ → HttpResponse β)
    (url apiKey attestationTypeBase sourceIdBase : String)
    (requestBody : ρ) : AttestationRequest ρ × Except String β :=
  let attestationType := toHex attestationTypeBase
  let sourceId := toHex sourceIdBase
  let request : AttestationRequest ρ :=
    { attestationType := attestationType, sourceId := sourceId,
      requestBody := requestBody }
  let response := fetcher request
  (request,
   if response.status ≠ 200 then
     Except.error ("Response status is not OK, status " ++
       toString response.status ++ " " ++ response.statusText ++ "\n")
   else
     Except.ok response.body)

/-- C7: the request sent by prepareAttestationRequestBase always carries
toHex of the attestation type base, toHex of the source id base and the
given request body; the parsed body is returned exactly when the response
status equals 200; any other status (other 2xx included) throws a message
beginning with the words Response status is not OK. -/
theorem prepareAttestationRequestBase_spec {ρ β : Type}
    (fetcher : AttestationRequest ρ → HttpResponse β)
    (url apiKey attestationTypeBase sourceIdBase : String)
    (requestBody : ρ) :
    (prepareAttestationRequestBase fetcher url apiKey attestationTypeBase
        sourceIdBase requestBody).1 =
      ⟨toHex attestationTypeBase, toHex sourceIdBase, requestBody⟩ ∧
    (∀ b, (prepareAttestationRequestBase fetcher url apiKey
        attestationTypeBase sourceIdBase requestBody).2 = Except.ok b ↔
      ((fetcher (prepareAttestationRequestBase fetcher url apiKey
          attestationTypeBase sourceIdBase requestBody).1).status = 200 ∧
        b = (fetcher (prepareAttestationRequestBase fetcher url apiKey
          attestationTypeBase sourceIdBase requestBody).1).body)) ∧
    ((fetcher (prepareAttestationRequestBase fetcher url apiKey
        attestationTypeBase sourceIdBase requestBody).1).status ≠ 200 →
      ∃ rest, (prepareAttestationRequestBase fetcher url apiKey
          attestationTypeBase sourceIdBase requestBody).2 =
        Except.error ("Response status is not OK" ++ rest)) := by
  have hreq : (prepareAttestationRequestBase fetcher url apiKey
      attestationTypeBase sourceIdBase requestBody).1 =
      ⟨toHex attestationTypeBase, toHex sourceIdBase, requestBody⟩ := rfl
  have h2 : (prepareAttestationRequestBase fetcher url apiKey
      attestationTypeBase sourceIdBase requestBody).2 =
      if (fetcher (⟨toHex attestationTypeBase, toHex sourceIdBase,
          requestBody⟩ : AttestationRequest ρ)).status ≠ 200 then
        Except.error ("Response status is not OK, status " ++
          toString (fetcher (⟨toHex attestationTypeBase, toHex sourceIdBase,
            requestBody⟩ : AttestationRequest ρ)).status ++ " " ++
          (fetcher (⟨toHex attestationTypeBase, toHex sourceIdBase,
            requestBody⟩ : AttestationRequest ρ)).statusText ++ "\n")
      else
        Except.ok (fetcher (⟨toHex attestationTypeBase, toHex sourceIdBase,
          requestBody⟩ : AttestationRequest ρ)).body := rfl
  refine ⟨hreq, ?_, ?_⟩
  · intro b
    rw [hreq, h2]
    by_cases hs : (fetcher (⟨toHex attestationTypeBase, toHex sourceIdBase,
        requestBody⟩ : AttestationRequest ρ)).status = 200
    · rw [if_neg (by simpa using hs)]
      constructor
      · intro h
        exact ⟨hs, (Except.ok.inj h).symm⟩
      · rintro ⟨-, hb⟩
        rw [hb]
    · rw [if_pos hs]
      constructor
      · intro h
        exact absurd h (by simp)
      · rintro ⟨h200, -⟩
        exact absurd h200 hs
  · rw [hreq, h2]
    intro hs
    rw [if_pos hs]
    refine ⟨", status " ++
      toString (fetcher (⟨toHex attestationTypeBase, toHex sourceIdBase,
        requestBody⟩ : AttestationRequest ρ)).status ++ " " ++
      (fetcher (⟨toHex attestationTypeBase, toHex sourceIdBase,
        requestBody⟩ : AttestationRequest ρ)).statusText ++ "\n", ?_⟩
    congr 1

/-- C7 witness: a fetcher returning status 201 makes
prepareAttestationRequestBase throw a message beginning with Response
status is not OK, at the concrete Payment and testXRP base strings. -/
theorem prepareAttestationRequestBase_spec_witness :
    ∃ rest, (prepareAttestationRequestBase
        (fun _ : AttestationRequest Nat =>
          ({ status := 201, statusText := "Created", body := 5 } :
            HttpResponse Nat))
        "https://fdc-verifiers-testnet.flare.network/" "key" "Payment"
        "testXRP" 0).2 =
      Except.error ("Response status is not OK" ++ rest) :=
  (prepareAttestationRequestBase_spec
      (fun _ : AttestationRequest Nat =>
        ({ status := 201, statusText := "Created", body := 5 } :
          HttpResponse Nat))
      "https://fdc-verifiers-testnet.flare.network/" "key" "Payment"
      "testXRP" 0).2.2 (by decide)

/-! ## verifyPayment (src/lib/fdcUtils.ts, lines 425-487)

The chain interaction of the repository goes through two viem entry points:
publicClient.readContract (a read-only eth_call) and the wagmi write hook
used for requestAttestation.  They are embedded as ChainAction events.
verifyPayment guards that the FdcVerification address is loaded and that
the proof data is complete, then performs a single readContract call on the
FdcVerification contract and returns its result.  The argument marshalling
(BigInt conversions of the response fields) is abstracted into the readFn
parameter, since the result of the eth_call is opaque to this code.  A JS
truthiness test on the address string is emptiness of the string; on the
optional fields it is Option.isSome. -/

/-- An on-chain interaction: a read-only contract call (eth_call) or a
state-changing transaction submission. -/
inductive ChainAction where
  | read (contract : String) (functionName : String)
  | write (contract : String) (functionName : String)
deriving DecidableEq, Repr

/-- Recognizer for state-changing chain actions. -/
def isWriteAction : ChainAction → Bool
  | ChainAction.write _ _ => true
  | ChainAction.read _ _ => false

/-- Runtime shape of the proof data handed to verifyPayment: the attestation
response payload is abstract, the proof is a Merkle proof array; either
field can be missing at runtime, which the source guards against. -/
structure PaymentProofData (σ : Type) where
  response : Option σ
  proof : Option (List String)

/-- Embedding of verifyPayment: guard the FdcVerification address and the
completeness of the proof data, then do one read-only readContract call of
the verifyPayment function and return its result.  readFn abstracts the
eth_call result as a function of the contract address, the response payload
and the Merkle proof. -/
def verifyPayment {σ : Type} (readFn : String → σ → List String → Bool)
    (proofData : PaymentProofData σ) (fdcVerification : String) :
    Except String Bool × List ChainAction :=
  if fdcVerification = "" then
    (Except.error "FDC Verification address not loaded", [])
  else
    match proofData.response, proofData.proof with
    | some response, some proof =>
        let result := readFn fdcVerification response proof
        (Except.ok result, [ChainAction.read fdcVerification "verifyPayment"])
    | _, _ => (Except.error "Proof data is incomplete", [])

/-- C6: verifyPayment never performs a state-changing chain action, and on
every complete proof data input (with the verification address loaded) it
performs exactly one read-only call of the FdcVerification verifyPayment
function and returns that call's result. -/
theorem verifyPayment_readonly {σ : Type}
    (readFn : String → σ → List String → Bool)
    (proofData : PaymentProofData σ) (fdcVerification : String) :
    ((verifyPayment readFn proofData fdcVerification).2.all
      (fun a => !(isWriteAction a))) = true ∧
    (fdcVerification ≠ "" →
      ∀ response proof, proofData.response = some response →
        proofData.proof = some proof →
        verifyPayment readFn proofData fdcVerification =
          (Except.ok (readFn fdcVerification response proof),
           [ChainAction.read fdcVerification "verifyPayment"])) := by
  constructor
  · unfold verifyPayment
    by_cases ha : fdcVerification = ""
    · simp [ha]
    · rw [if_neg ha]
      rcases proofData with ⟨resp, prf⟩
      rcases resp with - | r
      · simp [isWriteAction]
      · rcases prf with - | p
        · simp [isWriteAction]
        · simp [isWriteAction]
  · intro ha response proof hr hp
    unfold verifyPayment
    rw [if_neg ha, hr, hp]

/-- C6 witness: a concrete complete proof data value yields exactly the
read-only verifyPayment call and its result. -/
theorem verifyPayment_readonly_witness :
    verifyPayment (fun _ _ _ => true)
        ({ response := some 1, proof := some ["0xaa"] } :
          PaymentProofData Nat) "0xVER" =
      (Except.ok ((fun (_ : String) (_ : Nat) (_ : List String) => true)
          "0xVER" 1 ["0xaa"]),
       [ChainAction.read "0xVER" "verifyPayment"]) :=
  (verifyPayment_readonly (fun _ _ _ => true)
      ({ response := some 1, proof := some ["0xaa"] } : PaymentProofData Nat)
      "0xVER").2 (by decide) 1 ["0xaa"] rfl rfl

/-! ## Fee handling (C2)

Two submission paths exist:
* submitAttestationRequest in src/lib/fdcUtils.ts (lines 553-575) obtains
  the fee via getFdcRequestFee (lines 310-324), a readContract of
  getRequestFee on the FdcRequestFeeConfigurations contract, and attaches
  it as the transaction value;
* submitAttestationRequestWithWagmi in the workflow component (lines
  679-728) — the path actually used by the workflow — tries the same
  getRequestFee read, but on a thrown read or a missing public client it
  falls back to a locally hardcoded fee of 10^18 wei
  (requestFee = BigInt('1000000000000000000')).

The fee read is abstracted as feeRead : Option Nat (none when the
readContract call throws). -/

/-- A transaction handed to the wallet: target contract address, args and
attached value in wei. -/
structure SubmittedTx where
  address : String
  args : List String
  value : Nat
deriving DecidableEq, Repr

/-- The hardcoded fallback fee of submitAttestationRequestWithWagmi:
BigInt('1000000000000000000'), i.e. 1 FLR in wei. -/
def FALLBACK_REQUEST_FEE : Nat := 1000000000000000000

/-- Embedding of getFdcRequestFee: guard the address, then read
getRequestFee from the FdcRequestFeeConfigurations contract.  readRequestFee
abstracts the contract's fee computation as a function of the ABI-encoded
request. -/
def getFdcRequestFee (readRequestFee : String → Nat)
    (abiEncodedRequest : String) (fdcRequestFeeConfigurations : String) :
    Except String Nat :=
  if fdcRequestFeeConfigurations = "" then
    Except.error "FDC Request Fee Configurations address not loaded"
  else
    Except.ok (readRequestFee abiEncodedRequest)

/-- Embedding of submitAttestationRequest (src/lib/fdcUtils.ts): guard the
FdcHub address, get the fee via getFdcRequestFee, and submit the request
with that fee attached as the value. -/
def submitAttestationRequest (readRequestFee : String → Nat)
    (abiEncodedRequest fdcHub fdcRequestFeeConfigurations : String) :
    Except String SubmittedTx :=
  if fdcHub = "" then
    Except.error "FDC Hub address not loaded"
  else
    match getFdcRequestFee readRequestFee abiEncodedRequest
        fdcRequestFeeConfigurations with
    | Except.error e => Except.error e
    | Except.ok requestFee =>
        Except.ok { address := fdcHub, args := [abiEncodedRequest],
                    value := requestFee }

/-- Embedding of submitAttestationRequestWithWagmi (workflow component):
guard the request and the FdcHub address; with a public client available,
attach the getRequestFee read result when the read succeeds and the
hardcoded fallback fee when it throws; without a client, attach the
fallback fee; then submit. -/
def submitAttestationRequestWithWagmi (feeRead : Option Nat)
    (clientAvailable : Bool) (abiEncodedRequest fdcHub : String) :
    Except String SubmittedTx :=
  if abiEncodedRequest = "" then
    Except.error "ABI encoded request is undefined or empty"
  else if fdcHub = "" then
    Except.error "FDC Hub address not loaded"
  else
    let requestFee :=
      if clientAvailable then
        match feeRead with
        | some fee => fee
        | none => FALLBACK_REQUEST_FEE
      else FALLBACK_REQUEST_FEE
    Except.ok { address := fdcHub, args := [abiEncodedRequest],
                value := requestFee }

/-- The claim of C2 as stated, over the wagmi submission path used by the
workflow: every submitted transaction attaches a value obtained from a
successful getRequestFee contract read. -/
def feeOnlyFromContractClaim : Prop :=
  ∀ (feeRead : Option Nat) (clientAvailable : Bool)
    (abiEncodedRequest fdcHub : String) (tx : SubmittedTx),
    submitAttestationRequestWithWagmi feeRead clientAvailable
        abiEncodedRequest fdcHub = Except.ok tx →
    ∃ fee, feeRead = some fee ∧ tx.value = fee

/-- C2 counterexample: when the getRequestFee read throws (feeRead = none),
submitAttestationRequestWithWagmi still submits, attaching the locally
hardcoded fallback fee of 10^18 wei instead of a contract-read fee — so the
claim that the fee is always read from the contract is false. -/
theorem feeOnlyFromContractClaim_false :
    ¬ feeOnlyFromContractClaim ∧
    submitAttestationRequestWithWagmi none true "0x1234" "0xHUB" =
      Except.ok { address := "0xHUB", args := ["0x1234"],
                  value := 1000000000000000000 } := by
  constructor
  · intro h
    obtain ⟨fee, hfee, -⟩ :=
      h none true "0x1234" "0xHUB"
        { address := "0xHUB", args := ["0x1234"],
          value := 1000000000000000000 }
        (by rfl)
    exact Option.noConfusion hfee
  · rfl

/-- C2 amended: fee computation is delegated to the contract except for the
fallback: submitAttestationRequest always attaches exactly the getRequestFee
read result; submitAttestationRequestWithWagmi attaches the getRequestFee
read result when the read succeeds and a client is available, and the
hardcoded fallback fee of 10^18 wei when the read throws or no client is
available. -/
theorem submissionFee_sources (readRequestFee : String → Nat)
    (feeRead : Option Nat) (clientAvailable : Bool)
    (abiEncodedRequest fdcHub fdcRequestFeeConfigurations : String) :
    (∀ tx, submitAttestationRequest readRequestFee abiEncodedRequest fdcHub
        fdcRequestFeeConfigurations = Except.ok tx →
      tx.value = readRequestFee abiEncodedRequest) ∧
    (∀ tx, submitAttestationRequestWithWagmi feeRead clientAvailable
        abiEncodedRequest fdcHub = Except.ok tx →
      (∀ fee, feeRead = some fee → clientAvailable = true →
        tx.value = fee) ∧
      ((feeRead = none ∨ clientAvailable = false) →
        tx.value = FALLBACK_REQUEST_FEE)) := by
  constructor
  · intro tx h
    unfold submitAttestationRequest at h
    by_cases hh : fdcHub = ""
    · rw [if_pos hh] at h
      exact absurd h (by simp)
    · rw [if_neg hh] at h
      unfold getFdcRequestFee at h
      by_cases hc : fdcRequestFeeConfigurations = ""
      · rw [if_pos hc] at h
        exact absurd h (by simp)
      · rw [if_neg hc] at h
        simp only at h
        obtain rfl := Except.ok.inj h
        rfl
  · intro tx h
    unfold submitAttestationRequestWithWagmi at h
    by_cases hr : abiEncodedRequest = ""
    · rw [if_pos hr] at h
      exact absurd h (by simp)
    · rw [if_neg hr] at h
      by_cases hh : fdcHub = ""
      · rw [if_pos hh] at h
        exact absurd h (by simp)
      · rw [if_neg hh] at h
        simp only at h
        obtain rfl := Except.ok.inj h
        constructor
        · intro fee hfee hcl
          rw [hfee, hcl]
          rfl
        · intro hfb
          rcases hfb with hfee | hcl
          · rw [hfee]
            cases clientAvailable <;> rfl
          · rw [hcl]
            rfl

/-- C2 amended witness: the fdcUtils submission path at a concrete contract
fee function attaching exactly the read fee of 42. -/
theorem submissionFee_sources_witness :
    ({ address := "0xHUB", args := ["0x1234"],
       value := 42 } : SubmittedTx).value = 42 :=
  (submissionFee_sources (fun _ => 42) (some 42) true "0x1234" "0xHUB"
      "0xCFG").1
    { address := "0xHUB", args := ["0x1234"], value := 42 } (by rfl)

/-! ## executeFdcWorkflow / continueWorkflowAfterSubmission (workflow
component, lines 157-303, 306-342 and 569-631)

The asynchronous React workflow is embedded as an event-trace semantics.
A WorkflowEnv collects the booleans that decide the control flow of one
run: the three guards at the top of executeFdcWorkflow, the outcomes of the
verifier fetches (the first prepareRequest fetch and the prepareResponse
fallback), the availability of a public client for the fee read, the
transaction receipt success that triggers the continuation effect, and the
outcomes of the round id calculation, the proof retrieval and the
verification call.  Each await of a network or chain interaction and each
React state update relevant to the claims is an event, emitted in source
order. -/

/-- An observable event of one workflow run. -/
inductive WEvent where
  | setStatus (stepId : String) (status : StepStatus)
  | verifierCall
  | feeRead
  | txSubmit
  | roundIdCalc
  | daFetch
  | verifyCall
  | errorMsgSet
  | successMsgSet
deriving DecidableEq, Repr

/-- Control-flow outcomes of one workflow run. -/
structure WorkflowEnv where
  addressesLoaded : Bool
  addressErrorPresent : Bool
  connected : Bool
  verifierFirstOk : Bool
  verifierOk : Bool
  clientAvailable : Bool
  txOk : Bool
  roundOk : Bool
  proofOk : Bool
  verifyOk : Bool
deriving DecidableEq, Repr

/-- The five step ids of the workflow, in their displayed order (lines
343-486 of the component). -/
def workflowStepIds : List String :=
  ["prepare-request", "submit-request", "wait-finalization",
   "prepare-proof", "verify-data"]

/-- Trace of continueWorkflowAfterSubmission (lines 157-303): round id
calculation and finalization wait, proof retrieval from the DA Layer,
verification via the FdcVerification contract; any thrown error is caught
at lines 287-293, setting the error message. -/
def continueWorkflowAfterSubmission (env : WorkflowEnv) : List WEvent :=
  WEvent.setStatus "wait-finalization" StepStatus.in_progress ::
  WEvent.roundIdCalc ::
  (if env.roundOk = false then [WEvent.errorMsgSet]
   else
     WEvent.setStatus "wait-finalization" StepStatus.in_progress ::
     WEvent.setStatus "wait-finalization" StepStatus.completed ::
     WEvent.setStatus "prepare-proof" StepStatus.in_progress ::
     WEvent.daFetch ::
     (if env.proofOk = false then [WEvent.errorMsgSet]
      else
        WEvent.setStatus "prepare-proof" StepStatus.completed ::
        WEvent.setStatus "verify-data" StepStatus.in_progress ::
        WEvent.verifyCall ::
        (if env.verifyOk = false then [WEvent.errorMsgSet]
         else
           [WEvent.setStatus "verify-data" StepStatus.completed,
            WEvent.successMsgSet])))

/-- Trace of the body of executeFdcWorkflow after its guards (lines
598-630) together with the transaction-receipt effect (lines 306-328) and
the write-error effect (lines 331-342): prepareRequest with its fallback
fetch, the wagmi submission with its fee read, and on receipt success the
continuation. -/
def mainWorkflowRun (env : WorkflowEnv) : List WEvent :=
  WEvent.setStatus "prepare-request" StepStatus.in_progress ::
  WEvent.verifierCall ::
  ((if env.verifierFirstOk = false then [WEvent.verifierCall] else []) ++
   (if env.verifierOk = false then
      [WEvent.setStatus "prepare-request" StepStatus.error,
       WEvent.errorMsgSet]
    else
      WEvent.setStatus "prepare-request" StepStatus.completed ::
      WEvent.setStatus "submit-request" StepStatus.in_progress ::
      ((if env.clientAvailable then [WEvent.feeRead] else []) ++
       WEvent.txSubmit ::
       (if env.txOk = false then
          [WEvent.setStatus "submit-request" StepStatus.error,
           WEvent.errorMsgSet]
        else
          WEvent.setStatus "submit-request" StepStatus.completed ::
          continueWorkflowAfterSubmission env))))

/-- Trace of one run of executeFdcWorkflow (lines 569-631): the three
guards return early with only an error message; otherwise all steps are
reset to pending and the workflow body runs. -/
def executeFdcWorkflow (env : WorkflowEnv) : List WEvent :=
  if env.addressesLoaded = false then [WEvent.errorMsgSet]
  else if env.addressErrorPresent = true then [WEvent.errorMsgSet]
  else if env.connected = false then [WEvent.errorMsgSet]
  else
    (workflowStepIds.map
      (fun s => WEvent.setStatus s StepStatus.pending)) ++
    mainWorkflowRun env

/-- A chain or network interaction, as opposed to a local state update. -/
def isExternalOp : WEvent → Bool
  | WEvent.verifierCall => true
  | WEvent.feeRead => true
  | WEvent.txSubmit => true
  | WEvent.roundIdCalc => true
  | WEvent.daFetch => true
  | WEvent.verifyCall => true
  | _ => false

/-- A trace starts steps in order: whenever a step of the five-step
workflow is set to in_progress, every step occurring earlier in
workflowStepIds has previously been set to completed. -/
def startsStepsInOrder (tr : List WEvent) : Prop :=
  ∀ i : Fin tr.length, ∀ s ∈ workflowStepIds,
    tr.get i = WEvent.setStatus s StepStatus.in_progress →
    ∀ p ∈ workflowStepIds,
      workflowStepIds.indexOf p < workflowStepIds.indexOf s →
      ∃ j : Fin tr.length, j.val < i.val ∧
        tr.get j = WEvent.setStatus p StepStatus.completed

/-- In a trace, no external operation follows the verification contract
call. -/
def verifyCallIsLastOp (tr : List WEvent) : Prop :=
  ∀ i j : Fin tr.length, tr.get i = WEvent.verifyCall →
    i.val < j.val → isExternalOp (tr.get j) = false

instance (tr : List WEvent) : Decidable (startsStepsInOrder tr) := by
  unfold startsStepsInOrder
  infer_instance

instance (tr : List WEvent) : Decidable (verifyCallIsLastOp tr) := by
  unfold verifyCallIsLastOp
  infer_instance

set_option maxHeartbeats 8000000

/-- C1: every run of executeFdcWorkflow starts its steps in the fixed
linear order prepare-request, submit-request, wait-finalization,
prepare-proof, verify-data — a step is set to in_progress only after every
earlier step has been set to completed — and the verification contract call
is the last external operation of the run. -/
theorem executeFdcWorkflow_ordered (env : WorkflowEnv) :
    startsStepsInOrder (executeFdcWorkflow env) ∧
    verifyCallIsLastOp (executeFdcWorkflow env) := by
  obtain ⟨a, b, c, d, e, f, g, h, i, j⟩ := env
  revert a b c d e f g h i j
  decide

/-- C1 witness: the ordering and last-operation properties at the all-success
run. -/
theorem executeFdcWorkflow_ordered_witness :
    startsStepsInOrder (executeFdcWorkflow
      ⟨true, false, true, true, true, true, true, true, true, true⟩) ∧
    verifyCallIsLastOp (executeFdcWorkflow
      ⟨true, false, true, true, true, true, true, true, true, true⟩) :=
  executeFdcWorkflow_ordered
    ⟨true, false, true, true, true, true, true, true, true, true⟩

/-- C8: when the wallet is not connected, or the FDC contract addresses are
not loaded or failed to load, executeFdcWorkflow only sets an error message
and returns: its trace is exactly the error-message event, so it performs no
external operation, makes no verifier call, submits no transaction, and
updates no step status (every pending step stays pending). -/
theorem executeFdcWorkflow_guards (env : WorkflowEnv)
    (h : env.addressesLoaded = false ∨ env.addressErrorPresent = true ∨
      env.connected = false) :
    executeFdcWorkflow env = [WEvent.errorMsgSet] ∧
    (∀ e ∈ executeFdcWorkflow env, isExternalOp e = false) ∧
    WEvent.verifierCall ∉ executeFdcWorkflow env ∧
    WEvent.txSubmit ∉ executeFdcWorkflow env ∧
    ∀ s st, WEvent.setStatus s st ∉ executeFdcWorkflow env := by
  have htr : executeFdcWorkflow env = [WEvent.errorMsgSet] := by
    rcases h with h | h | h
    · simp [executeFdcWorkflow, h]
    · by_cases h1 : env.addressesLoaded = false
      · simp [executeFdcWorkflow, h1]
      · simp [executeFdcWorkflow, h1, h]
    · by_cases h1 : env.addressesLoaded = false
      · simp [executeFdcWorkflow, h1]
      · by_cases h2 : env.addressErrorPresent = true
        · simp [executeFdcWorkflow, h1, h2]
        · simp [executeFdcWorkflow, h1, h2, h]
  rw [htr]
  refine ⟨rfl, ?_, ?_, ?_, ?_⟩
  · intro e he
    simp only [List.mem_singleton] at he
    rw [he]
    rfl
  · simp
  · simp
  · intro s st
    simp

/-- C8 witness: the disconnected-wallet run with addresses loaded performs
nothing but the error message. -/
theorem executeFdcWorkflow_guards_witness :
    executeFdcWorkflow
        ⟨true, false, false, true, true, true, true, true, true, true⟩ =
      [WEvent.errorMsgSet] ∧
    (∀ e ∈ executeFdcWorkflow
        ⟨true, false, false, true, true, true, true, true, true, true⟩,
      isExternalOp e = false) ∧
    WEvent.verifierCall ∉ executeFdcWorkflow
      ⟨true, false, false, true, true, true, true, true, true, true⟩ ∧
    WEvent.txSubmit ∉ executeFdcWorkflow
      ⟨true, false, false, true, true, true, true, true, true, true⟩ ∧
    ∀ s st, WEvent.setStatus s st ∉ executeFdcWorkflow
      ⟨true, false, false, true, true, true, true, true, true, true⟩ :=
  executeFdcWorkflow_guards
    ⟨true, false, false, true, true, true, true, true, true, true⟩
    (by decide)
